import Mathlib

/-!
Verification of the go-spire-api-client repository (`spire_client.go`).

The repository snapshot contains two versions of the client.  The current
pagination algorithm (`FetchSpireData`, lines 418-443 of the snapshot:
page size 10000, early return when `count <= maxLimit`, defensive stop on a
zero-record page) is embedded below as `paginateT` / `FetchSpireDataT`.
The older variant also present in the snapshot (lines 151-194: page size
1000, a fixed-bound `for i := 1; i < remainingRequests; i++` loop with no
early return and no zero-record stop) is embedded as `fetchLoopV1T` /
`FetchSpireDataV1T`; theorems below document where its behaviour diverges.

Modelling conventions:
 * The HTTP backend is abstracted as a function from the `start` offset (the
   only query parameter that varies between the page requests of one
   `FetchSpireData` call) to the response of `SpireRequest` for that page.
   Offset `0` stands for the first request, which carries no `start`
   parameter (the backend's `start` is a zero-based offset, so an absent
   `start` means offset 0).  Errors are strings, mirroring the Go `error`
   messages built with `fmt.Errorf`.
 * `float64` `Count` values are modelled as `Int`, matching the
   `int(initialResponse.Count)` conversion actually used by the code
   (record counts are integers).
 * The instrumented functions additionally return the list of start
   offsets of the page requests issued, in order; `FetchSpireData` is the
   projection onto the result.
-/
/-- `SpireResponse` (records plus the backend's total count), generic in the
record type, mirroring the untyped `[]map[string]interface{}` payload. -/
structure SpireResp (R : Type) where
  records : List R
  count : Int

/-- The fixed page size `maxLimit` of the current `FetchSpireData`. -/
def maxLimit : Nat := 10000

/-- Error message wrapping of a failing page request,
`fmt.Errorf("error making Spire request starting at %d: %w", start, err)`. -/
def spirePageErr (start : Nat) (e : String) : String :=
  "error making Spire request starting at " ++ Nat.repr start ++ ": " ++ e

/-- Error message wrapping of a failing first request,
`fmt.Errorf("error making initial Spire request: %w", err)`. -/
def spireInitErr (e : String) : String :=
  "error making initial Spire request: " ++ e

/-- The pagination loop of the current `FetchSpireData`
(`for start := maxLimit; len(allRecords) < count; start += maxLimit`):
while the accumulator is shorter than `count`, request the page at `start`;
abort on error; append the returned records; stop if the page was empty
(defensive termination).  Also returns the trace of requested offsets. -/
def paginateT {R : Type} (B : Nat → Except String (SpireResp R)) (count : Int)
    (L : Nat) (start : Nat) (acc : List R) : Except String (List R) × List Nat :=
  if h : (acc.length : Int) < count then
    match B start with
    | .error e => (.error (spirePageErr start e), [start])
    | .ok resp =>
      if hr : resp.records.isEmpty then (.ok (acc ++ resp.records), [start])
      else
        let p := paginateT B count L (start + L) (acc ++ resp.records)
        (p.1, start :: p.2)
  else (.ok acc, [])
termination_by (count - acc.length).toNat
decreasing_by
  have hne : resp.records ≠ [] := by
    intro hnil
    rw [hnil] at hr
    exact hr rfl
  have hlen : 0 < resp.records.length := List.length_pos.mpr hne
  simp only [List.length_append]
  omega

/-- The current `FetchSpireData` (instrumented with the request trace):
issue the first request; on success, if `count <= maxLimit` return the
first page as the complete result, otherwise run the pagination loop
seeded with the first page's records. -/
def FetchSpireDataT {R : Type} (B : Nat → Except String (SpireResp R)) :
    Except String (List R) × List Nat :=
  match B 0 with
  | .error e => (.error (spireInitErr e), [0])
  | .ok init =>
    if init.count ≤ (maxLimit : Int) then (.ok init.records, [0])
    else
      let p := paginateT B init.count maxLimit maxLimit init.records
      (p.1, 0 :: p.2)

/-- The result of `FetchSpireData` (the trace projected away). -/
def FetchSpireData {R : Type} (B : Nat → Except String (SpireResp R)) :
    Except String (List R) :=
  (FetchSpireDataT B).1

/-- Page size of the older `FetchSpireData` variant. -/
def maxLimitV1 : Nat := 1000

/-- Error message of the older variant's loop,
`fmt.Errorf("error making Spire request for page %d: %w", i+2, err)`. -/
def spirePageErrV1 (i : Nat) (e : String) : String :=
  "error making Spire request for page " ++ Nat.repr (i + 2) ++ ": " ++ e

/-- The older variant's loop `for i := 1; i < remainingRequests; i++`:
`n` counts the remaining iterations, `i` is the loop index; each iteration
requests `start = maxLimit * i`, aborts on error, and appends the records.
No early exit on an empty page. -/
def fetchLoopV1T {R : Type} (B : Nat → Except String (SpireResp R)) (L : Nat) :
    Nat → Nat → List R → Except String (List R) × List Nat
  | 0, _, acc => (.ok acc, [])
  | n + 1, i, acc =>
    match B (L * i) with
    | .error e => (.error (spirePageErrV1 i e), [L * i])
    | .ok resp =>
      let p := fetchLoopV1T B L n (i + 1) (acc ++ resp.records)
      (p.1, L * i :: p.2)

/-- The older `FetchSpireData` variant (instrumented): computes
`remainingRequests := (int(count) + maxLimit - 1) / maxLimit - 1` (Go
integer division truncates toward zero, i.e. `Int.tdiv`) and runs the loop
for `i = 1 .. remainingRequests-1`. -/
def FetchSpireDataV1T {R : Type} (B : Nat → Except String (SpireResp R)) :
    Except String (List R) × List Nat :=
  match B 0 with
  | .error e => (.error (spireInitErr e), [0])
  | .ok init =>
    let rr : Int := Int.tdiv (init.count + (maxLimitV1 : Int) - 1) (maxLimitV1 : Int) - 1
    let p := fetchLoopV1T B maxLimitV1 (rr - 1).toNat 1 init.records
    (p.1, 0 :: p.2)

/-- `P 0 ++ P 1 ++ ... ++ P (n-1)`: the records of `n` consecutive pages in
arrival order. -/
def concatPages {R : Type} (P : Nat → List R) : Nat → List R
  | 0 => []
  | n + 1 => P 0 ++ concatPages (fun i => P (i + 1)) n

/-- `[start, start+L, ..., start+(n-1)*L]`: `n` page offsets stepping by `L`. -/
def pageOffsets (L start : Nat) : Nat → List Nat
  | 0 => []
  | n + 1 => start :: pageOffsets L (start + L) n

/-- Concrete backend for the C1 witness: 10001 records served as one full
page of 10000 and a final page of 1. -/
def C1B : Nat → Except String (SpireResp Nat) := fun s =>
  if s = 0 then .ok ⟨List.replicate 10000 7, ((1 * maxLimit + 1 : Nat) : Int)⟩
  else if s = 10000 then .ok ⟨[7], 37⟩
  else .error "unused"

/-- The pages of `C1B`. -/
def C1P : Nat → List Nat := fun i => if i = 0 then List.replicate 10000 7 else [7]

/-- Concrete backend for the C3 witness: first page reports 20000 but the
page at offset 10000 comes back empty. -/
def C3B : Nat → Except String (SpireResp Nat) := fun s =>
  if s = 0 then .ok ⟨List.replicate 10000 7, 20000⟩ else .ok ⟨[], 0⟩

/-- The pages of `C3B`. -/
def C3P : Nat → List Nat := fun i => if i = 0 then List.replicate 10000 7 else []

/-- Concrete backend for the C4 witness: first page reports 20000, the page
at offset 10000 fails. -/
def C4B : Nat → Except String (SpireResp Nat) := fun s =>
  if s = 0 then .ok ⟨List.replicate 10000 7, 20000⟩ else .error "boom"

/-- The pages of `C4B`. -/
def C4P : Nat → List Nat := fun i => if i = 0 then List.replicate 10000 7 else []

/-- Backend with 2500 matching records served in full pages of 1000
(page size of the older variant). -/
def V1FullB : Nat → Except String (SpireResp Nat) := fun _ =>
  .ok ⟨List.replicate 1000 7, (2500 : Int)⟩

/-- Backend reporting 2500 records whose page at offset 1000 is empty. -/
def V1EmptyB : Nat → Except String (SpireResp Nat) := fun s =>
  if s = 0 then .ok ⟨List.replicate 1000 7, (2500 : Int)⟩ else .ok ⟨[], 0⟩

mutual

/-- A JSON value (the dynamic `interface{}` payload of records/filters). -/
inductive Jval where
  | null : Jval
  | bool (b : Bool) : Jval
  | num (n : Int) : Jval
  | str (s : String) : Jval
  | arr (elems : Jlist) : Jval
  | obj (members : Jobj) : Jval

/-- A JSON array's element list. -/
inductive Jlist where
  | nil : Jlist
  | cons (hd : Jval) (tl : Jlist) : Jlist

/-- A JSON object's entry list (a Go `map[string]...` in emission order). -/
inductive Jobj where
  | nil : Jobj
  | cons (key : String) (val : Jval) (tl : Jobj) : Jobj

end

/-- The lower-case hexadecimal digit of a value below 16. -/
def hexDigit (d : Nat) : Char :=
  match d with
  | 0 => '0' | 1 => '1' | 2 => '2' | 3 => '3' | 4 => '4'
  | 5 => '5' | 6 => '6' | 7 => '7' | 8 => '8' | 9 => '9'
  | 10 => 'a' | 11 => 'b' | 12 => 'c' | 13 => 'd' | 14 => 'e' | 15 => 'f'
  | _ => '0'

/-- The value of a hexadecimal digit character. -/
def hexVal (c : Char) : Option Nat :=
  if c.isDigit then some (c.toNat - 48)
  else if 'a' ≤ c ∧ c ≤ 'f' then some (c.toNat - 87)
  else if 'A' ≤ c ∧ c ≤ 'F' then some (c.toNat - 55)
  else none

/-- The decimal digit character of a value below 10. -/
def digitChar (d : Nat) : Char :=
  match d with
  | 0 => '0' | 1 => '1' | 2 => '2' | 3 => '3' | 4 => '4'
  | 5 => '5' | 6 => '6' | 7 => '7' | 8 => '8' | 9 => '9'
  | _ => '0'

/-- The value of a decimal digit character. -/
def digitVal (c : Char) : Nat := c.toNat - 48

/-- The decimal digits of a natural number, most significant first. -/
def natDigits (n : Nat) : List Char :=
  if h : n < 10 then [digitChar n]
  else natDigits (n / 10) ++ [digitChar (n % 10)]
termination_by n
decreasing_by exact Nat.div_lt_self (by omega) (by norm_num)

/-- JSON escaping of one string character: `"`, `\`, `\n`, `\r`, `\t` get
two-character escapes, other control characters a `\u00XX` escape, and
everything else passes through. -/
def escChar (c : Char) : List Char :=
  if c = '"' then ['\\', '"']
  else if c = '\\' then ['\\', '\\']
  else if c = '\n' then ['\\', 'n']
  else if c = '\r' then ['\\', 'r']
  else if c = '\t' then ['\\', 't']
  else if c.toNat < 32 then
    ['\\', 'u', '0', '0', hexDigit (c.toNat / 16), hexDigit (c.toNat % 16)]
  else [c]

/-- The escaped body of a JSON string, including the closing quote. -/
def escString : List Char → List Char
  | [] => ['"']
  | c :: tl => escChar c ++ escString tl

/-- The JSON rendering of an integer (an optional minus sign and decimal
digits). -/
def renderInt (n : Int) : List Char :=
  if n < 0 then '-' :: natDigits n.natAbs else natDigits n.natAbs

mutual

/-- The JSON rendering of a value. -/
def renderV : Jval → List Char
  | .null => "null".data
  | .bool true => "true".data
  | .bool false => "false".data
  | .num n => renderInt n
  | .str s => '"' :: escString s.data
  | .arr es => '[' :: renderElems es
  | .obj ms => '\x7b' :: renderMembers ms

/-- The rendering of an array's elements including separators and the
closing bracket. -/
def renderElems : Jlist → List Char
  | .nil => [']']
  | .cons v .nil => renderV v ++ [']']
  | .cons v (.cons w tl) => renderV v ++ ',' :: renderElems (.cons w tl)

/-- The rendering of an object's entries including separators and the
closing brace. -/
def renderMembers : Jobj → List Char
  | .nil => ['\x7d']
  | .cons k v .nil => ('"' :: escString k.data) ++ ':' :: renderV v ++ ['\x7d']
  | .cons k v (.cons k2 v2 tl) =>
    ('"' :: escString k.data) ++ ':' :: renderV v ++ ',' :: renderMembers (.cons k2 v2 tl)

end

/-- Match an expected literal character sequence, returning the remainder. -/
def stripPre : List Char → List Char → Option (List Char)
  | [], cs => some cs
  | k :: kt, c :: ct => if c = k then stripPre kt ct else none
  | _ :: _, [] => none

/-- Decode one JSON string escape sequence (after the backslash). -/
def parseEscape : List Char → Option (Char × List Char)
  | '"' :: r => some ('"', r)
  | '\\' :: r => some ('\\', r)
  | '/' :: r => some ('/', r)
  | 'n' :: r => some ('\n', r)
  | 'r' :: r => some ('\r', r)
  | 't' :: r => some ('\t', r)
  | 'b' :: r => some ('\x08', r)
  | 'f' :: r => some ('\x0c', r)
  | 'u' :: h1 :: h2 :: h3 :: h4 :: r =>
    match hexVal h1, hexVal h2, hexVal h3, hexVal h4 with
    | some a, some b, some c, some d =>
      some (Char.ofNat (((a * 16 + b) * 16 + c) * 16 + d), r)
    | _, _, _, _ => none
  | _ => none

/-- Parse the body of a JSON string (after the opening quote), returning
the unescaped characters and the input after the closing quote; the fuel
argument only needs to reach the number of decoded characters plus one. -/
def parseStrBody : Nat → List Char → Option (List Char × List Char)
  | 0, _ => none
  | _ + 1, [] => none
  | f + 1, c :: rest =>
    if c = '"' then some ([], rest)
    else if c = '\\' then
      match parseEscape rest with
      | some (e, r) => (parseStrBody f r).map (fun p => (e :: p.1, p.2))
      | none => none
    else (parseStrBody f rest).map (fun p => (c :: p.1, p.2))

/-- Parse a non-empty run of decimal digits into a natural number. -/
def parseDigits (cs : List Char) : Option (Nat × List Char) :=
  let ds := cs.takeWhile Char.isDigit
  if ds.isEmpty then none
  else some (ds.foldl (fun a c => a * 10 + digitVal c) 0, cs.dropWhile Char.isDigit)

mutual

/-- Fuel-indexed JSON value parser. -/
def parseV : Nat → List Char → Option (Jval × List Char)
  | 0, _ => none
  | _ + 1, [] => none
  | f + 1, c :: rest =>
    if c = 'n' then
      match stripPre ['u', 'l', 'l'] rest with
      | some r => some (.null, r)
      | none => none
    else if c = 't' then
      match stripPre ['r', 'u', 'e'] rest with
      | some r => some (.bool true, r)
      | none => none
    else if c = 'f' then
      match stripPre ['a', 'l', 's', 'e'] rest with
      | some r => some (.bool false, r)
      | none => none
    else if c = '"' then
      match parseStrBody (rest.length + 1) rest with
      | some (s, r) => some (.str (String.mk s), r)
      | none => none
    else if c = '[' then
      if rest.head? = some ']' then some (.arr .nil, rest.tail)
      else
        match parseElems f rest with
        | some (es, r) => some (.arr es, r)
        | none => none
    else if c = '\x7b' then
      if rest.head? = some '\x7d' then some (.obj .nil, rest.tail)
      else
        match parseMembers f rest with
        | some (ms, r) => some (.obj ms, r)
        | none => none
    else if c = '-' then
      match parseDigits rest with
      | some (m, r) => some (.num (-(m : Int)), r)
      | none => none
    else if c.isDigit then
      match parseDigits (c :: rest) with
      | some (m, r) => some (.num (m : Int), r)
      | none => none
    else none
  termination_by structural f => f

/-- Parse the elements of a non-empty JSON array (after the opening
bracket), through the closing bracket. -/
def parseElems : Nat → List Char → Option (Jlist × List Char)
  | 0, _ => none
  | f + 1, cs =>
    match parseV f cs with
    | some (v, r) =>
      match r.head? with
      | some ',' =>
        match parseElems f r.tail with
        | some (es, r3) => some (.cons v es, r3)
        | none => none
      | some ']' => some (.cons v .nil, r.tail)
      | _ => none
    | none => none
  termination_by structural f => f

/-- Parse the entries of a non-empty JSON object (after the opening brace),
through the closing brace. -/
def parseMembers : Nat → List Char → Option (Jobj × List Char)
  | 0, _ => none
  | f + 1, cs =>
    match cs with
    | [] => none
    | c :: r0 =>
      if c = '"' then
        match parseStrBody (r0.length + 1) r0 with
        | some (k, r1) =>
          match r1.head? with
          | some ':' =>
            match parseV f r1.tail with
            | some (v, r3) =>
              match r3.head? with
              | some ',' =>
                match parseMembers f r3.tail with
                | some (ms, r5) => some (.cons (String.mk k) v ms, r5)
                | none => none
              | some '\x7d' => some (.cons (String.mk k) v .nil, r3.tail)
              | _ => none
            | none => none
          | _ => none
        | none => none
      else none
  termination_by structural f => f

end

mutual

/-- Parser fuel sufficient for a value. -/
def szV : Jval → Nat
  | .null => 1
  | .bool _ => 1
  | .num _ => 1
  | .str _ => 1
  | .arr es => szL es + 1
  | .obj ms => szO ms + 1

/-- Parser fuel sufficient for an array's elements. -/
def szL : Jlist → Nat
  | .nil => 1
  | .cons v tl => max (szV v) (szL tl) + 1

/-- Parser fuel sufficient for an object's entries. -/
def szO : Jobj → Nat
  | .nil => 1
  | .cons _ v tl => max (szV v) (szO tl) + 1

end

/-- The input does not start with a decimal digit (so that a preceding
number cannot greedily absorb it). -/
def headNotDigit : List Char → Prop
  | [] => True
  | c :: _ => c.isDigit = false

/-- Decode a JSON document: parse one value, requiring the whole input to
be consumed (as `json.Unmarshal` does). -/
def jsonDecode (s : String) : Option Jval :=
  match parseV (s.data.length + 1) s.data with
  | some (v, []) => some v
  | _ => none

/-- `ConvertFilter`: a nil or empty filter map encodes to the empty string;
otherwise the map is marshalled to its JSON string.  (The Go error branch
wraps a `json.Marshal` failure, which cannot occur for a JSON value.) -/
def ConvertFilter : Option Jobj → String
  | none => ""
  | some .nil => ""
  | some (.cons k v tl) => String.mk (renderV (.obj (.cons k v tl)))

/-- `json.Unmarshal` of a document into a `map[string]interface{}`: the
document must decode to a JSON object. -/
def decodeFilter (s : String) : Option Jobj :=
  match jsonDecode s with
  | some (.obj o) => some o
  | _ => none

/-- The query parameters `FetchSpireData` puts on the request URL
(lines 405-411 / 164-169): `limit` always, `filter` only when the encoded
filter is non-empty; `L` is the variant's page size.  Parameter order in
the encoded URL is immaterial here. -/
def buildFetchQuery (L : Nat) (filter : String) : List (String × String) :=
  if filter = "" then [("limit", Nat.repr L)]
  else [("limit", Nat.repr L), ("filter", filter)]

/-- Conversion from `List` to the JSON array element list. -/
def jlistOfList : List Jval → Jlist
  | [] => .nil
  | v :: tl => .cons v (jlistOfList tl)

/-- The elements of a JSON array as a `List`. -/
def jlistToList : Jlist → List Jval
  | .nil => []
  | .cons v tl => v :: jlistToList tl

/-- `OrderDetails` (order number and purchase number). -/
structure OrderDetails where
  OrderNo : String
  PurchaseNo : String

/-- One `$or` condition of `GetOrderItems`: `{"orderNo": order.OrderNo}`. -/
def orderCondition (o : OrderDetails) : Jval :=
  .obj (.cons "orderNo" (.str o.OrderNo) .nil)

/-- The filter `GetOrderItems` builds over the orders map,
`{"$or": [{"orderNo": ...}, ...]}`, one condition per map entry (Go map
iteration order abstracted as the entry list's order); the function then
delegates to `FetchSpireData` with this filter. -/
def GetOrderItemsFilter (orders : List OrderDetails) : Jobj :=
  .cons "$or" (.arr (jlistOfList (orders.map orderCondition))) .nil

/-- An HTTP response as `SpireRequest` / `ValidateSpireCredentials` see it:
numeric status code, the status line text (`resp.Status`, e.g.
"403 Forbidden"), and the response body (already read; the body-read
failure branch is an IO concern outside this model). -/
structure HTTPResponse where
  statusCode : Nat
  status : String
  body : String

/-- Object field lookup (`map[string]interface{}` access). -/
def jobjLookup : Jobj → String → Option Jval
  | .nil, _ => none
  | .cons k v tl, key => if k = key then some v else jobjLookup tl key

/-- A JSON array whose elements must all be objects
(`[]map[string]interface{}`). -/
def jlistObjs : Jlist → Option (List Jobj)
  | .nil => some []
  | .cons (.obj o) tl => (jlistObjs tl).map (o :: ·)
  | .cons _ _ => none

/-- The `records` field decoded into `[]map[string]interface{}`: a missing
or null field is the nil slice; anything but an array of objects fails. -/
def jvalRecords : Option Jval → Option (List Jobj)
  | none => some []
  | some .null => some []
  | some (.arr l) => jlistObjs l
  | some _ => none

/-- The `count` field decoded into a number: missing or null gives the
zero value; anything but a number fails. -/
def jvalCount : Option Jval → Option Int
  | none => some 0
  | some .null => some 0
  | some (.num n) => some n
  | some _ => none

/-- Decoding a 200-response body into `SpireResponse`
(`json.NewDecoder(resp.Body).Decode(&spireResponse)`). -/
def decodeSpireResponse (body : String) : Except String (SpireResp Jobj) :=
  match jsonDecode body with
  | some (.obj o) =>
    match jvalRecords (jobjLookup o "records"), jvalCount (jobjLookup o "count") with
    | some rs, some c => .ok ⟨rs, c⟩
    | _, _ => .error "error unmarshaling JSON"
  | _ => .error "error unmarshaling JSON"

/-- The response interpretation of `SpireRequest` (lines 87-107 / 328-348):
statuses other than 200/201/204 become an error carrying the status text
and the body; 201/204 return the empty `SpireResponse` without reading the
body; 200 decodes the body as a `SpireResponse`. -/
def SpireRequestInterpret (resp : HTTPResponse) : Except String (SpireResp Jobj) :=
  if resp.statusCode ≠ 200 ∧ resp.statusCode ≠ 201 ∧ resp.statusCode ≠ 204 then
    .error ("API request failed with status " ++ resp.status ++ ". Details: " ++ resp.body)
  else if resp.statusCode = 201 ∨ resp.statusCode = 204 then
    .ok ⟨[], 0⟩
  else
    decodeSpireResponse resp.body

/-- `SpireError` (status line text and body). -/
structure SpireError where
  Status : String
  Detail : String

/-- `SpireError.Error()`:
`"API request failed with status %s. Details: %s"`. -/
def SpireErrorMessage (e : SpireError) : String :=
  "API request failed with status " ++ e.Status ++ ". Details: " ++ e.Detail

/-- The response interpretation of `ValidateSpireCredentials`
(lines 110-134 / 351-375): 200 is success (no error), anything else is a
`SpireError` carrying the status text and the response body. -/
def ValidateSpireCredentials (resp : HTTPResponse) : Option SpireError :=
  if resp.statusCode ≠ 200 then some ⟨resp.status, resp.body⟩ else none

/-- UTF-8 encoding of one character (`[]byte` of a Go string). -/
def charUtf8 (c : Char) : List Nat :=
  let n := c.toNat
  if n < 128 then [n]
  else if n < 2048 then [192 + n / 64, 128 + n % 64]
  else if n < 65536 then [224 + n / 4096, 128 + n / 64 % 64, 128 + n % 64]
  else [240 + n / 262144, 128 + n / 4096 % 64, 128 + n / 64 % 64, 128 + n % 64]

/-- UTF-8 encoding of a string's characters. -/
def utf8Bytes : List Char → List Nat
  | [] => []
  | c :: tl => charUtf8 c ++ utf8Bytes tl

/-- The standard base64 alphabet (`base64.StdEncoding`). -/
def b64Alphabet : List Char :=
  "ABCDEFGHIJKLMNOPQRSTUVWXYZabcdefghijklmnopqrstuvwxyz0123456789+/".data

/-- The base64 digit of a 6-bit value. -/
def b64Char (n : Nat) : Char := b64Alphabet.getD n 'A'

/-- Standard base64 with `=` padding (`base64.StdEncoding.EncodeToString`). -/
def base64Encode : List Nat → List Char
  | [] => []
  | [a] => [b64Char (a / 4), b64Char (a % 4 * 16), '=', '=']
  | [a, b] => [b64Char (a / 4), b64Char (a % 4 * 16 + b / 16), b64Char (b % 16 * 4), '=']
  | a :: b :: c :: tl =>
    [b64Char (a / 4), b64Char (a % 4 * 16 + b / 16), b64Char (b % 16 * 4 + c / 64),
      b64Char (c % 64)] ++ base64Encode tl

/-- `SpireAgent` (the credentials passed with every request). -/
structure SpireAgent where
  Username : String
  Password : String

/-- `BasicAuthHeader`:
`"Basic " + base64.StdEncoding.EncodeToString([]byte(username + ":" + password))`. -/
def BasicAuthHeader (a : SpireAgent) : String :=
  "Basic " ++ String.mk (base64Encode (utf8Bytes (a.Username ++ ":" ++ a.Password).data))

/-- The headers `SpireRequest` attaches to a request (lines 73-78 /
315-319): `Content-Type: application/json` when a payload is present, and
the Basic Authorization header always. -/
def spireRequestHeaders (a : SpireAgent) (hasPayload : Bool) : List (String × String) :=
  (if hasPayload then [("Content-Type", "application/json")] else [])
    ++ [("Authorization", BasicAuthHeader a)]

theorem pageOffsets_eq_map (L : Nat) : ∀ (n start : Nat),
    pageOffsets L start n = (List.range n).map (fun i => start + i * L) := by
  intro n
  induction n with
  | zero => intro start; rfl
  | succ m ih =>
    intro start
    rw [pageOffsets, List.range_succ_eq_map, List.map_cons, List.map_map, ih]
    refine congrArg₂ _ (by omega) (List.map_congr_left ?_)
    intro i _
    simp only [Function.comp_apply, Nat.succ_mul, Nat.add_mul, Nat.one_mul]
    omega

theorem concatPages_length {R : Type} (P : Nat → List R) (L : Nat) :
    ∀ n, (∀ i, i < n → (P i).length = L) → (concatPages P n).length = n * L := by
  intro n
  induction n generalizing P with
  | zero => intro _; simp [concatPages]
  | succ m ih =>
    intro hP
    rw [concatPages, List.length_append, hP 0 (Nat.succ_pos m),
      ih (fun i => P (i + 1)) (fun i hi => hP (i + 1) (by omega))]
    ring

theorem concatPages_one {R : Type} (P : Nat → List R) : concatPages P 1 = P 0 := by
  show P 0 ++ concatPages (fun i => P (i + 1)) 0 = P 0
  show P 0 ++ [] = P 0
  exact List.append_nil _

theorem paginateT_stop {R : Type} (B : Nat → Except String (SpireResp R))
    (count : Int) (L start : Nat) (acc : List R)
    (h : ¬ ((acc.length : Int) < count)) :
    paginateT B count L start acc = (.ok acc, []) := by
  rw [paginateT, dif_neg h]

theorem paginateT_err {R : Type} (B : Nat → Except String (SpireResp R))
    (count : Int) (L start : Nat) (acc : List R) (e : String)
    (h : (acc.length : Int) < count) (hB : B start = .error e) :
    paginateT B count L start acc = (.error (spirePageErr start e), [start]) := by
  rw [paginateT, dif_pos h, hB]

theorem paginateT_empty {R : Type} (B : Nat → Except String (SpireResp R))
    (count : Int) (L start : Nat) (acc : List R) (resp : SpireResp R)
    (h : (acc.length : Int) < count) (hB : B start = .ok resp)
    (hr : resp.records = []) :
    paginateT B count L start acc = (.ok acc, [start]) := by
  rw [paginateT, dif_pos h, hB]
  simp [hr]

theorem paginateT_step {R : Type} (B : Nat → Except String (SpireResp R))
    (count : Int) (L start : Nat) (acc : List R) (resp : SpireResp R)
    (h : (acc.length : Int) < count) (hB : B start = .ok resp)
    (hr : resp.records ≠ []) :
    paginateT B count L start acc =
      ((paginateT B count L (start + L) (acc ++ resp.records)).1,
        start :: (paginateT B count L (start + L) (acc ++ resp.records)).2) := by
  rw [paginateT, dif_pos h, hB]
  have : ¬ resp.records.isEmpty := by
    simp only [List.isEmpty_iff]
    exact hr
  simp [this]

/-- Master lemma: if for `n` iterations the backend returns a non-empty page
`P i` at offset `start + i*L` and the accumulator stays below `count`, the
loop traverses those pages in order and continues at `start + n*L` with the
pages appended. -/
theorem paginateT_run {R : Type} (B : Nat → Except String (SpireResp R))
    (count : Int) (L : Nat) (P : Nat → List R) (C : Nat → Int) :
    ∀ (n : Nat) (start : Nat) (acc : List R),
    (∀ i, i < n → B (start + i * L) = .ok ⟨P i, C i⟩) →
    (∀ i, i < n → P i ≠ []) →
    (∀ i, i < n → ((acc ++ concatPages P i).length : Int) < count) →
    paginateT B count L start acc =
      ((paginateT B count L (start + n * L) (acc ++ concatPages P n)).1,
        pageOffsets L start n ++
          (paginateT B count L (start + n * L) (acc ++ concatPages P n)).2) := by
  intro n
  induction n generalizing P C with
  | zero =>
    intro start acc _ _ _
    simp [concatPages, pageOffsets]
  | succ m ih =>
    intro start acc hB hne hlt
    have h0 : ((acc.length : Int) < count) := by
      have := hlt 0 (Nat.succ_pos m)
      simpa [concatPages] using this
    have hB0 : B start = .ok ⟨P 0, C 0⟩ := by
      simpa using hB 0 (Nat.succ_pos m)
    rw [paginateT_step B count L start acc ⟨P 0, C 0⟩ h0 hB0 (hne 0 (Nat.succ_pos m))]
    rw [ih (fun i => P (i + 1)) (fun i => C (i + 1)) (start + L) (acc ++ P 0)
      (fun i hi => by
        have := hB (i + 1) (by omega)
        simpa [Nat.succ_mul, Nat.add_mul, Nat.one_mul, Nat.add_assoc, Nat.add_comm,
          Nat.add_left_comm] using this
      )
      (fun i hi => hne (i + 1) (by omega))
      (fun i hi => by
        have := hlt (i + 1) (by omega)
        simpa [concatPages, List.append_assoc] using this)]
    have harith : start + L + m * L = start + (m + 1) * L := by
      rw [Nat.succ_mul]; omega
    have hconc : (acc ++ P 0) ++ concatPages (fun i => P (i + 1)) m
        = acc ++ concatPages P (m + 1) := by
      rw [concatPages, List.append_assoc]
    rw [harith, hconc, pageOffsets]
    simp

theorem concatPages_succ_back {R : Type} (P : Nat → List R) :
    ∀ n, concatPages P (n + 1) = concatPages P n ++ P n := by
  intro n
  induction n generalizing P with
  | zero => simp [concatPages]
  | succ m ih =>
    rw [concatPages, ih (fun i => P (i + 1))]
    rw [show concatPages P (m + 1) = P 0 ++ concatPages (fun i => P (i + 1)) m from rfl]
    simp [List.append_assoc]

theorem pageOffsets_succ_back (L : Nat) :
    ∀ n start, pageOffsets L start (n + 1) = pageOffsets L start n ++ [start + n * L] := by
  intro n
  induction n with
  | zero => intro start; simp [pageOffsets]
  | succ m ih =>
    intro start
    rw [pageOffsets, ih (start + L), pageOffsets]
    have : start + L + m * L = start + (m + 1) * L := by rw [Nat.succ_mul]; omega
    rw [this, List.cons_append]


/-- Claim C1: for a backend whose first page reports `count = k*pageSize + r`
(`0 < r < pageSize`, `k ≥ 1`) and whose every page request succeeds with
`pageSize` records per full page (and the remaining `r` on the last),
`FetchSpireData` issues exactly `k+1` page requests at start offsets
`0, pageSize, ..., k*pageSize` and returns the pages' records concatenated
in arrival order, a sequence of length `count`. -/
theorem C1_fetch_all_pagination {R : Type} (B : Nat → Except String (SpireResp R))
    (P : Nat → List R) (C : Nat → Int) (k r : Nat)
    (hk : 1 ≤ k) (hr0 : 0 < r) (hrL : r < maxLimit)
    (hB0 : B 0 = .ok ⟨P 0, ((k * maxLimit + r : Nat) : Int)⟩)
    (hBi : ∀ i, 1 ≤ i → i ≤ k → B (i * maxLimit) = .ok ⟨P i, C i⟩)
    (hfull : ∀ i, i < k → (P i).length = maxLimit)
    (hlast : (P k).length = r) :
    FetchSpireDataT B = (.ok (concatPages P (k + 1)), pageOffsets maxLimit 0 (k + 1))
      ∧ (concatPages P (k + 1)).length = k * maxLimit + r
      ∧ pageOffsets maxLimit 0 (k + 1) = (List.range (k + 1)).map (fun i => i * maxLimit) := by
  obtain ⟨k', rfl⟩ : ∃ k', k = k' + 1 := ⟨k - 1, by omega⟩
  have hLval : maxLimit = 10000 := rfl
  have hlen : ∀ n, n ≤ k' + 1 → (concatPages P n).length = n * maxLimit := by
    intro n hn
    exact concatPages_length P maxLimit n (fun i hi => hfull i (by omega))
  have hlenall : (concatPages P (k' + 2)).length = (k' + 1) * maxLimit + r := by
    rw [concatPages_succ_back, List.length_append, hlen (k' + 1) (le_refl _), hlast]
  have hnotle : ¬ ((((k' + 1) * maxLimit + r : Nat) : Int) ≤ (maxLimit : Int)) := by
    rw [hLval]
    push_cast
    omega
  have hrun := paginateT_run B (((k' + 1) * maxLimit + r : Nat) : Int) maxLimit
    (fun i => P (i + 1)) (fun i => C (i + 1)) k' maxLimit (P 0)
    (fun i hi => by
      have := hBi (i + 1) (by omega) (by omega)
      rw [show maxLimit + i * maxLimit = (i + 1) * maxLimit by rw [Nat.succ_mul]; omega]
      exact this)
    (fun i hi => by
      have h1 : (P (i + 1)).length = maxLimit := hfull (i + 1) (by omega)
      intro hnil
      have h2 : P (i + 1) = [] := hnil
      rw [h2] at h1
      rw [hLval] at h1
      simp at h1)
    (fun i hi => by
      have h1 : ((P 0 ++ concatPages (fun t => P (t + 1)) i).length) = (i + 1) * maxLimit := by
        rw [List.length_append, hfull 0 (by omega),
          concatPages_length (fun t => P (t + 1)) maxLimit i
            (fun t ht => hfull (t + 1) (by omega))]
        rw [Nat.succ_mul]
        omega
      rw [h1, hLval]
      push_cast
      have h3 : (i + 1) * 10000 ≤ (k' + 1) * 10000 := Nat.mul_le_mul_right _ (by omega)
      omega)
  have hacc : P 0 ++ concatPages (fun t => P (t + 1)) k' = concatPages P (k' + 1) := rfl
  have hstart : maxLimit + k' * maxLimit = (k' + 1) * maxLimit := by rw [Nat.succ_mul]; omega
  rw [hacc, hstart] at hrun
  have hstep : paginateT B (((k' + 1) * maxLimit + r : Nat) : Int) maxLimit
        ((k' + 1) * maxLimit) (concatPages P (k' + 1)) =
      ((paginateT B (((k' + 1) * maxLimit + r : Nat) : Int) maxLimit
          ((k' + 1) * maxLimit + maxLimit) (concatPages P (k' + 1) ++ P (k' + 1))).1,
        (k' + 1) * maxLimit ::
          (paginateT B (((k' + 1) * maxLimit + r : Nat) : Int) maxLimit
            ((k' + 1) * maxLimit + maxLimit) (concatPages P (k' + 1) ++ P (k' + 1))).2) := by
    refine paginateT_step B _ maxLimit ((k' + 1) * maxLimit) (concatPages P (k' + 1))
      ⟨P (k' + 1), C (k' + 1)⟩ ?_ (hBi (k' + 1) (by omega) (le_refl _)) ?_
    · rw [hlen (k' + 1) (le_refl _), hLval]
      push_cast
      omega
    · intro hnil
      have h2 : P (k' + 1) = [] := hnil
      rw [h2] at hlast
      simp at hlast
      omega
  have hdone : paginateT B (((k' + 1) * maxLimit + r : Nat) : Int) maxLimit
        ((k' + 1) * maxLimit + maxLimit) (concatPages P (k' + 1) ++ P (k' + 1)) =
      (.ok (concatPages P (k' + 1) ++ P (k' + 1)), []) := by
    refine paginateT_stop B _ maxLimit _ _ ?_
    rw [List.length_append, hlen (k' + 1) (le_refl _), hlast]
    push_cast
    omega
  have hback : concatPages P (k' + 1) ++ P (k' + 1) = concatPages P (k' + 2) :=
    (concatPages_succ_back P (k' + 1)).symm
  have hmain : FetchSpireDataT B =
      (.ok (concatPages P (k' + 2)), pageOffsets maxLimit 0 (k' + 2)) := by
    rw [FetchSpireDataT, hB0]
    simp only [hnotle, if_false]
    show ((paginateT B (((k' + 1) * maxLimit + r : Nat) : Int) maxLimit maxLimit (P 0)).1,
        0 :: (paginateT B (((k' + 1) * maxLimit + r : Nat) : Int) maxLimit maxLimit (P 0)).2) = _
    rw [hrun, hstep, hdone, hback]
    refine Prod.ext rfl ?_
    have h1 : pageOffsets maxLimit 0 (k' + 2)
        = pageOffsets maxLimit 0 (k' + 1) ++ [0 + (k' + 1) * maxLimit] :=
      pageOffsets_succ_back maxLimit (k' + 1) 0
    have h2 : pageOffsets maxLimit 0 (k' + 1) = 0 :: pageOffsets maxLimit (0 + maxLimit) k' := rfl
    rw [h1, h2]
    simp
  refine ⟨hmain, hlenall, ?_⟩
  rw [pageOffsets_eq_map]
  simp

/-- Claim C3: if some page after the first returns zero records while the
accumulated records are still fewer than the first page's reported count,
the pagination loop stops at that page and `FetchSpireData` returns the
records accumulated so far with no error (a successful short result). -/
theorem C3_zero_page_soft_stop {R : Type} (B : Nat → Except String (SpireResp R))
    (P : Nat → List R) (C : Nat → Int) (cnt : Int) (j : Nat)
    (hj : 1 ≤ j) (hcnt : (maxLimit : Int) < cnt)
    (hB0 : B 0 = .ok ⟨P 0, cnt⟩)
    (hBi : ∀ i, 1 ≤ i → i ≤ j → B (i * maxLimit) = .ok ⟨P i, C i⟩)
    (hne : ∀ i, i < j → P i ≠ [])
    (hbelow : ∀ i, i ≤ j → ((concatPages P i).length : Int) < cnt)
    (hzero : P j = []) :
    FetchSpireDataT B = (.ok (concatPages P j), pageOffsets maxLimit 0 (j + 1)) := by
  obtain ⟨j', rfl⟩ : ∃ j', j = j' + 1 := ⟨j - 1, by omega⟩
  have hnotle : ¬ (cnt ≤ (maxLimit : Int)) := by omega
  have hrun := paginateT_run B cnt maxLimit
    (fun i => P (i + 1)) (fun i => C (i + 1)) j' maxLimit (P 0)
    (fun i hi => by
      have := hBi (i + 1) (by omega) (by omega)
      rw [show maxLimit + i * maxLimit = (i + 1) * maxLimit by rw [Nat.succ_mul]; omega]
      exact this)
    (fun i hi => hne (i + 1) (by omega))
    (fun i hi => by
      have hacc : P 0 ++ concatPages (fun t => P (t + 1)) i = concatPages P (i + 1) := rfl
      rw [hacc]
      exact hbelow (i + 1) (by omega))
  have hacc : P 0 ++ concatPages (fun t => P (t + 1)) j' = concatPages P (j' + 1) := rfl
  have hstart : maxLimit + j' * maxLimit = (j' + 1) * maxLimit := by rw [Nat.succ_mul]; omega
  rw [hacc, hstart] at hrun
  have hempty : paginateT B cnt maxLimit ((j' + 1) * maxLimit) (concatPages P (j' + 1)) =
      (.ok (concatPages P (j' + 1)), [(j' + 1) * maxLimit]) := by
    refine paginateT_empty B cnt maxLimit ((j' + 1) * maxLimit) (concatPages P (j' + 1))
      ⟨P (j' + 1), C (j' + 1)⟩ (hbelow (j' + 1) (le_refl _))
      (hBi (j' + 1) (by omega) (le_refl _)) hzero
  rw [FetchSpireDataT, hB0]
  simp only [hnotle, if_false]
  show ((paginateT B cnt maxLimit maxLimit (P 0)).1,
      0 :: (paginateT B cnt maxLimit maxLimit (P 0)).2) = _
  rw [hrun, hempty]
  refine Prod.ext rfl ?_
  have h1 : pageOffsets maxLimit 0 (j' + 2)
      = pageOffsets maxLimit 0 (j' + 1) ++ [0 + (j' + 1) * maxLimit] :=
    pageOffsets_succ_back maxLimit (j' + 1) 0
  have h2 : pageOffsets maxLimit 0 (j' + 1) = 0 :: pageOffsets maxLimit (0 + maxLimit) j' := rfl
  rw [h1, h2]
  simp

/-- Claim C4: if any page request after the first fails, `FetchSpireData`
returns an error (the wrapped page error) and no partial record sequence:
the records accumulated from earlier pages are discarded. -/
theorem C4_page_error_aborts {R : Type} (B : Nat → Except String (SpireResp R))
    (P : Nat → List R) (C : Nat → Int) (cnt : Int) (j : Nat) (e : String)
    (hj : 1 ≤ j) (hcnt : (maxLimit : Int) < cnt)
    (hB0 : B 0 = .ok ⟨P 0, cnt⟩)
    (hBi : ∀ i, 1 ≤ i → i < j → B (i * maxLimit) = .ok ⟨P i, C i⟩)
    (hne : ∀ i, i < j → P i ≠ [])
    (hbelow : ∀ i, i ≤ j → ((concatPages P i).length : Int) < cnt)
    (hBj : B (j * maxLimit) = .error e) :
    FetchSpireDataT B
      = (.error (spirePageErr (j * maxLimit) e), pageOffsets maxLimit 0 (j + 1))
      ∧ ∀ recs : List R, FetchSpireData B ≠ .ok recs := by
  obtain ⟨j', rfl⟩ : ∃ j', j = j' + 1 := ⟨j - 1, by omega⟩
  have hnotle : ¬ (cnt ≤ (maxLimit : Int)) := by omega
  have hrun := paginateT_run B cnt maxLimit
    (fun i => P (i + 1)) (fun i => C (i + 1)) j' maxLimit (P 0)
    (fun i hi => by
      have := hBi (i + 1) (by omega) (by omega)
      rw [show maxLimit + i * maxLimit = (i + 1) * maxLimit by rw [Nat.succ_mul]; omega]
      exact this)
    (fun i hi => hne (i + 1) (by omega))
    (fun i hi => by
      have hacc : P 0 ++ concatPages (fun t => P (t + 1)) i = concatPages P (i + 1) := rfl
      rw [hacc]
      exact hbelow (i + 1) (by omega))
  have hacc : P 0 ++ concatPages (fun t => P (t + 1)) j' = concatPages P (j' + 1) := rfl
  have hstart : maxLimit + j' * maxLimit = (j' + 1) * maxLimit := by rw [Nat.succ_mul]; omega
  rw [hacc, hstart] at hrun
  have herr : paginateT B cnt maxLimit ((j' + 1) * maxLimit) (concatPages P (j' + 1)) =
      (.error (spirePageErr ((j' + 1) * maxLimit) e), [(j' + 1) * maxLimit]) :=
    paginateT_err B cnt maxLimit ((j' + 1) * maxLimit) (concatPages P (j' + 1)) e
      (hbelow (j' + 1) (le_refl _)) hBj
  have hmain : FetchSpireDataT B
      = (.error (spirePageErr ((j' + 1) * maxLimit) e), pageOffsets maxLimit 0 (j' + 2)) := by
    rw [FetchSpireDataT, hB0]
    simp only [hnotle, if_false]
    show ((paginateT B cnt maxLimit maxLimit (P 0)).1,
        0 :: (paginateT B cnt maxLimit maxLimit (P 0)).2) = _
    rw [hrun, herr]
    refine Prod.ext rfl ?_
    have h1 : pageOffsets maxLimit 0 (j' + 2)
        = pageOffsets maxLimit 0 (j' + 1) ++ [0 + (j' + 1) * maxLimit] :=
      pageOffsets_succ_back maxLimit (j' + 1) 0
    have h2 : pageOffsets maxLimit 0 (j' + 1) = 0 :: pageOffsets maxLimit (0 + maxLimit) j' := rfl
    rw [h1, h2]
    simp
  refine ⟨hmain, ?_⟩
  intro recs hok
  rw [FetchSpireData, hmain] at hok
  exact Except.noConfusion hok

/-- Claim C2: if the first page reports `count <= pageSize`, `FetchSpireData`
issues exactly one page request and returns the first page's records
unchanged.  Proved for both versions of the function in the snapshot
(current: page size 10000, via the early return; older variant: page size
1000, via a zero-iteration loop). -/
theorem C2_single_page {R R' : Type} (B : Nat → Except String (SpireResp R))
    (B' : Nat → Except String (SpireResp R'))
    (recs : List R) (cnt : Int) (recs' : List R') (cnt' : Int)
    (hB : B 0 = .ok ⟨recs, cnt⟩) (hle : cnt ≤ (maxLimit : Int))
    (hB' : B' 0 = .ok ⟨recs', cnt'⟩) (hle' : cnt' ≤ (maxLimitV1 : Int)) :
    FetchSpireDataT B = (.ok recs, [0]) ∧ FetchSpireDataV1T B' = (.ok recs', [0]) := by
  constructor
  · rw [FetchSpireDataT, hB]
    simp only [if_pos hle]
  · rw [FetchSpireDataV1T, hB']
    have hle1000 : cnt' ≤ 1000 := hle'
    have htd : Int.tdiv (cnt' + (maxLimitV1 : Int) - 1) (maxLimitV1 : Int) ≤ 1 := by
      have hm : (maxLimitV1 : Int) = 1000 := rfl
      rw [hm]
      rcases le_or_lt 0 (cnt' + 1000 - 1) with h0 | h0
      · rw [Int.tdiv_eq_ediv h0 (by norm_num)]
        omega
      · have hrw : Int.tdiv (cnt' + 1000 - 1) 1000
            = -(Int.tdiv (-(cnt' + 1000 - 1)) 1000) := by
          rw [← Int.neg_tdiv, neg_neg]
        rw [hrw]
        have hnn : 0 ≤ Int.tdiv (-(cnt' + 1000 - 1)) 1000 :=
          Int.tdiv_nonneg (by omega) (by norm_num)
        omega
    have hzero : ((Int.tdiv (cnt' + (maxLimitV1 : Int) - 1) (maxLimitV1 : Int) - 1) - 1).toNat
        = 0 := by omega
    show ((fetchLoopV1T B' maxLimitV1
          ((Int.tdiv (cnt' + (maxLimitV1 : Int) - 1) (maxLimitV1 : Int) - 1) - 1).toNat
          1 recs').1,
        0 :: (fetchLoopV1T B' maxLimitV1
          ((Int.tdiv (cnt' + (maxLimitV1 : Int) - 1) (maxLimitV1 : Int) - 1) - 1).toNat
          1 recs').2) = _
    rw [hzero]
    rfl


theorem C1_fetch_all_pagination_witness :
    FetchSpireDataT C1B = (.ok (concatPages C1P 2), pageOffsets maxLimit 0 2)
      ∧ (concatPages C1P 2).length = 1 * maxLimit + 1 := by
  have h := C1_fetch_all_pagination C1B C1P (fun _ => 37) 1 1 (le_refl 1)
    (by norm_num) (by norm_num [maxLimit])
    rfl
    (fun i h1 h2 => by
      have hi1 : i = 1 := by omega
      subst hi1
      rfl)
    (fun i hi => by
      have hi0 : i = 0 := by omega
      subst hi0
      show (List.replicate 10000 7).length = maxLimit
      rw [List.length_replicate]
      rfl)
    (by
      show ([7] : List Nat).length = 1
      rfl)
  exact ⟨h.1, h.2.1⟩

theorem C2_single_page_witness :
    FetchSpireDataT (fun _ => .ok ⟨([3] : List Nat), 1⟩) = (.ok [3], [0])
      ∧ FetchSpireDataV1T (fun _ => .ok ⟨([4] : List Nat), 1⟩) = (.ok [4], [0]) :=
  C2_single_page (fun _ => .ok ⟨([3] : List Nat), 1⟩) (fun _ => .ok ⟨([4] : List Nat), 1⟩)
    [3] 1 [4] 1 rfl (by norm_num [maxLimit]) rfl (by norm_num [maxLimitV1])

theorem C3_zero_page_soft_stop_witness :
    FetchSpireDataT C3B = (.ok (concatPages C3P 1), pageOffsets maxLimit 0 2) := by
  refine C3_zero_page_soft_stop C3B C3P (fun _ => 0) 20000 1 (le_refl 1)
    (by norm_num [maxLimit]) rfl
    (fun i h1 h2 => by
      have hi1 : i = 1 := by omega
      subst hi1
      rfl)
    (fun i hi => by
      have hi0 : i = 0 := by omega
      subst hi0
      show List.replicate 10000 7 ≠ []
      intro hnil
      have h2 := congrArg List.length hnil
      rw [List.length_replicate] at h2
      simp at h2)
    (fun i hi => by
      rcases Nat.le_one_iff_eq_zero_or_eq_one.mp hi with h0 | h1
      · subst h0
        norm_num [concatPages]
      · subst h1
        rw [concatPages_one]
        have e : C3P 0 = List.replicate 10000 7 := rfl
        rw [e, List.length_replicate]
        norm_num)
    rfl

theorem C4_page_error_aborts_witness :
    FetchSpireDataT C4B
      = (.error (spirePageErr (1 * maxLimit) "boom"), pageOffsets maxLimit 0 2)
      ∧ ∀ recs : List Nat, FetchSpireData C4B ≠ .ok recs := by
  refine C4_page_error_aborts C4B C4P (fun _ => 0) 20000 1 "boom" (le_refl 1)
    (by norm_num [maxLimit]) rfl
    (fun i h1 h2 => by omega)
    (fun i hi => by
      have hi0 : i = 0 := by omega
      subst hi0
      show List.replicate 10000 7 ≠ []
      intro hnil
      have h2 := congrArg List.length hnil
      rw [List.length_replicate] at h2
      simp at h2)
    (fun i hi => by
      rcases Nat.le_one_iff_eq_zero_or_eq_one.mp hi with h0 | h1
      · subst h0
        norm_num [concatPages]
      · subst h1
        rw [concatPages_one]
        have e : C4P 0 = List.replicate 10000 7 := rfl
        rw [e, List.length_replicate]
        norm_num)
    rfl

/-- Divergence of the older `FetchSpireData` variant (lines 151-194 of the
snapshot): for a backend with 2500 matching records served in full pages of
1000, it issues only 2 requests (offsets 0 and 1000) and returns 2000
records — it never requests the final page at offset 2000, contradicting
both the claimed `k+1`-requests behaviour (claim C1, proved above for the
current variant) and its own doc comment ("Gets ALL records"). -/
theorem FetchSpireDataV1_misses_last_page :
    FetchSpireDataV1T V1FullB
      = (.ok (List.replicate 1000 (7 : Nat) ++ List.replicate 1000 7), [0, 1000]) := by
  have htd : ((Int.tdiv ((2500 : Int) + (maxLimitV1 : Int) - 1) (maxLimitV1 : Int) - 1) - 1).toNat
      = 1 := by decide
  show ((fetchLoopV1T V1FullB maxLimitV1
        ((Int.tdiv ((2500 : Int) + (maxLimitV1 : Int) - 1) (maxLimitV1 : Int) - 1) - 1).toNat
        1 (List.replicate 1000 7)).1,
      0 :: (fetchLoopV1T V1FullB maxLimitV1
        ((Int.tdiv ((2500 : Int) + (maxLimitV1 : Int) - 1) (maxLimitV1 : Int) - 1) - 1).toNat
        1 (List.replicate 1000 7)).2) = _
  rw [htd]
  have hstep : fetchLoopV1T V1FullB maxLimitV1 1 1 (List.replicate 1000 7)
      = (.ok (List.replicate 1000 7 ++ List.replicate 1000 7), [1000]) := rfl
  rw [hstep]

/-- The older variant also lacks the defensive zero-record stop of the
current variant (claim C3): with the same reported count 2500 but an empty
page at offset 1000, it runs its fixed two-request schedule and returns
only the first page's records with a nil error; the request count is
governed solely by the precomputed `remainingRequests`, not by the empty
page. -/
theorem FetchSpireDataV1_ignores_empty_page :
    FetchSpireDataV1T V1EmptyB
      = (.ok (List.replicate 1000 (7 : Nat) ++ []), [0, 1000]) := by
  have htd : ((Int.tdiv ((2500 : Int) + (maxLimitV1 : Int) - 1) (maxLimitV1 : Int) - 1) - 1).toNat
      = 1 := by decide
  show ((fetchLoopV1T V1EmptyB maxLimitV1
        ((Int.tdiv ((2500 : Int) + (maxLimitV1 : Int) - 1) (maxLimitV1 : Int) - 1) - 1).toNat
        1 (List.replicate 1000 7)).1,
      0 :: (fetchLoopV1T V1EmptyB maxLimitV1
        ((Int.tdiv ((2500 : Int) + (maxLimitV1 : Int) - 1) (maxLimitV1 : Int) - 1) - 1).toNat
        1 (List.replicate 1000 7)).2) = _
  rw [htd]
  have hstep : fetchLoopV1T V1EmptyB maxLimitV1 1 1 (List.replicate 1000 7)
      = (.ok (List.replicate 1000 7 ++ []), [1000]) := rfl
  rw [hstep]

/-!
JSON values and the JSON codec.

`ConvertFilter` marshals a `map[string]interface{}` with `encoding/json`
and `FetchSpireData` decodes response bodies with the same package; the
spec scopes that package as an external collaborator ("assume a standard
structured-data serializer").  It is modelled here by an executable JSON
renderer/parser pair over a JSON value type:
 * `Jval` is the tagged union of JSON value kinds; JSON numbers are
   modelled as integers (`Int`) — record counts and filter values in this
   client are integral; fractional `float64` formatting is out of scope.
 * A Go map is unordered and `json.Marshal` emits its keys in sorted
   order; a map value is represented by its entry list in emission order
   (`Jobj`), so the renderer emits entries in list order.
 * The renderer escapes `"`, `\`, and control characters exactly as a
   standard JSON encoder does; the parser accepts the standard escapes.
   No inter-token whitespace is emitted, and none needs to be consumed on
   the round trip.
-/

theorem digitChar_isDigit (d : Nat) : (digitChar d).isDigit = true := by
  unfold digitChar
  split <;> decide

theorem digitVal_digitChar : ∀ d, d < 10 → digitVal (digitChar d) = d := by decide

theorem hexVal_hexDigit : ∀ d, d < 16 → hexVal (hexDigit d) = some d := by decide

theorem natDigits_ne_nil (n : Nat) : natDigits n ≠ [] := by
  rw [natDigits]
  split
  · exact List.cons_ne_nil _ _
  · exact List.append_ne_nil_of_right_ne_nil _ (List.cons_ne_nil _ _)

theorem natDigits_all_digits (n : Nat) : ∀ c ∈ natDigits n, c.isDigit = true := by
  induction n using Nat.strong_induction_on with
  | _ n ih =>
    intro c hc
    rw [natDigits] at hc
    split at hc
    · rcases List.mem_singleton.mp hc with rfl
      exact digitChar_isDigit n
    · rcases List.mem_append.mp hc with h | h
      · exact ih (n / 10) (Nat.div_lt_self (by omega) (by norm_num)) c h
      · rcases List.mem_singleton.mp h with rfl
        exact digitChar_isDigit (n % 10)

theorem natDigits_foldl (n : Nat) : ∀ a : Nat,
    (natDigits n).foldl (fun acc c => acc * 10 + digitVal c) a
      = a * 10 ^ (natDigits n).length + n := by
  induction n using Nat.strong_induction_on with
  | _ n ih =>
    intro a
    rw [natDigits]
    split
    · next h =>
      simp only [List.foldl_cons, List.foldl_nil, List.length_singleton, pow_one]
      rw [digitVal_digitChar n h]
    · next h =>
      rw [List.foldl_append, ih (n / 10) (Nat.div_lt_self (by omega) (by norm_num)) a]
      simp only [List.foldl_cons, List.foldl_nil, List.length_append, List.length_singleton]
      rw [digitVal_digitChar (n % 10) (Nat.mod_lt _ (by norm_num))]
      rw [pow_succ]
      have hdm : 10 * (n / 10) + n % 10 = n := Nat.div_add_mod n 10
      ring_nf
      omega

theorem takeWhile_append_all {α : Type} (p : α → Bool) :
    ∀ (l rest : List α), (∀ c ∈ l, p c = true) →
    (∀ c, rest.head? = some c → p c = false) →
    (l ++ rest).takeWhile p = l ∧ (l ++ rest).dropWhile p = rest := by
  intro l
  induction l with
  | nil =>
    intro rest _ hrest
    cases rest with
    | nil => exact ⟨rfl, rfl⟩
    | cons c tl =>
      have hc : p c = false := hrest c rfl
      constructor
      · simp [List.takeWhile_cons, hc]
      · simp [List.dropWhile_cons, hc]
  | cons x xs ih =>
    intro rest hl hrest
    have hx : p x = true := hl x (List.mem_cons_self x xs)
    have hih := ih rest (fun c hc => hl c (List.mem_cons_of_mem _ hc)) hrest
    constructor
    · simp [List.takeWhile_cons, hx, hih.1]
    · simp [List.dropWhile_cons, hx, hih.2]

theorem parseDigits_natDigits (n : Nat) (rest : List Char) (hrest : headNotDigit rest) :
    parseDigits (natDigits n ++ rest) = some (n, rest) := by
  have hrest' : ∀ c, rest.head? = some c → Char.isDigit c = false := by
    intro c hc
    cases rest with
    | nil => simp at hc
    | cons d tl =>
      simp only [List.head?_cons, Option.some.injEq] at hc
      subst hc
      exact hrest
  have htw := takeWhile_append_all Char.isDigit (natDigits n) rest
    (natDigits_all_digits n) hrest'
  rw [parseDigits]
  simp only [htw.1, htw.2]
  have hne : ¬ (natDigits n).isEmpty := by
    cases hcase : natDigits n with
    | nil => exact absurd hcase (natDigits_ne_nil n)
    | cons c tl => simp
  simp only [hne, if_false]
  rw [natDigits_foldl n 0]
  simp


theorem escString_length (cs : List Char) : cs.length + 1 ≤ (escString cs).length := by
  induction cs with
  | nil => simp [escString]
  | cons c tl ih =>
    rw [escString, List.length_append]
    have hc : 1 ≤ (escChar c).length := by
      rw [escChar]
      repeat' split
      all_goals simp
    simp only [List.length_cons]
    omega

set_option maxHeartbeats 1000000 in

theorem parseEscape_u (h1 h2 h3 h4 : Char) (r : List Char) (a b cc d : Nat)
    (e1 : hexVal h1 = some a) (e2 : hexVal h2 = some b)
    (e3 : hexVal h3 = some cc) (e4 : hexVal h4 = some d) :
    parseEscape ('u' :: h1 :: h2 :: h3 :: h4 :: r)
      = some (Char.ofNat (((a * 16 + b) * 16 + cc) * 16 + d), r) := by
  rw [parseEscape]
  rw [e1, e2, e3, e4]

theorem parseStrBody_escString :
    ∀ (cs : List Char) (f : Nat) (rest : List Char), cs.length + 1 ≤ f →
    parseStrBody f (escString cs ++ rest) = some (cs, rest) := by
  intro cs
  induction cs with
  | nil =>
    intro f rest hf
    obtain ⟨f', rfl⟩ : ∃ f', f = f' + 1 := ⟨f - 1, by omega⟩
    rfl
  | cons c tl ih =>
    intro f rest hf
    obtain ⟨f', rfl⟩ : ∃ f', f = f' + 1 := ⟨f - 1, by omega⟩
    have hf' : tl.length + 1 ≤ f' := by
      simp only [List.length_cons] at hf
      omega
    rw [escString, List.append_assoc]
    by_cases h1 : c = '"'
    · subst h1
      have hstep : parseStrBody (f' + 1) (escChar '"' ++ (escString tl ++ rest))
          = (parseStrBody f' (escString tl ++ rest)).map (fun p => ('"' :: p.1, p.2)) := rfl
      rw [hstep, ih f' rest hf']
      rfl
    · by_cases h2 : c = '\\'
      · subst h2
        have hstep : parseStrBody (f' + 1) (escChar '\\' ++ (escString tl ++ rest))
            = (parseStrBody f' (escString tl ++ rest)).map (fun p => ('\\' :: p.1, p.2)) := rfl
        rw [hstep, ih f' rest hf']
        rfl
      · by_cases h3 : c = '\n'
        · subst h3
          have hstep : parseStrBody (f' + 1) (escChar '\n' ++ (escString tl ++ rest))
              = (parseStrBody f' (escString tl ++ rest)).map (fun p => ('\n' :: p.1, p.2)) := rfl
          rw [hstep, ih f' rest hf']
          rfl
        · by_cases h4 : c = '\r'
          · subst h4
            have hstep : parseStrBody (f' + 1) (escChar '\r' ++ (escString tl ++ rest))
                = (parseStrBody f' (escString tl ++ rest)).map (fun p => ('\r' :: p.1, p.2)) := rfl
            rw [hstep, ih f' rest hf']
            rfl
          · by_cases h5 : c = '\t'
            · subst h5
              have hstep : parseStrBody (f' + 1) (escChar '\t' ++ (escString tl ++ rest))
                  = (parseStrBody f' (escString tl ++ rest)).map (fun p => ('\t' :: p.1, p.2)) := rfl
              rw [hstep, ih f' rest hf']
              rfl
            · by_cases h6 : c.toNat < 32
              · rw [show escChar c
                    = ['\\', 'u', '0', '0', hexDigit (c.toNat / 16), hexDigit (c.toNat % 16)]
                  from by rw [escChar]; simp [h1, h2, h3, h4, h5, h6]]
                have e1 : hexVal (hexDigit (c.toNat / 16)) = some (c.toNat / 16) :=
                  hexVal_hexDigit _ (by omega)
                have e2 : hexVal (hexDigit (c.toNat % 16)) = some (c.toNat % 16) :=
                  hexVal_hexDigit _ (Nat.mod_lt _ (by norm_num))
                have hesc := parseEscape_u '0' '0' (hexDigit (c.toNat / 16))
                  (hexDigit (c.toNat % 16)) (escString tl ++ rest) 0 0
                  (c.toNat / 16) (c.toNat % 16) rfl rfl e1 e2
                have en : ((0 * 16 + 0) * 16 + c.toNat / 16) * 16 + c.toNat % 16 = c.toNat := by
                  omega
                rw [en, Char.ofNat_toNat] at hesc
                have hstep : parseStrBody (f' + 1) ('\\' :: 'u' :: '0' :: '0'
                      :: hexDigit (c.toNat / 16) :: hexDigit (c.toNat % 16)
                      :: (escString tl ++ rest))
                    = match parseEscape ('u' :: '0' :: '0' :: hexDigit (c.toNat / 16)
                        :: hexDigit (c.toNat % 16) :: (escString tl ++ rest)) with
                      | some (e, r) => (parseStrBody f' r).map (fun p => (e :: p.1, p.2))
                      | none => none := by
                  rw [parseStrBody, if_neg (by decide), if_pos rfl]
                simp only [List.cons_append, List.nil_append]
                rw [hstep, hesc]
                simp only [Option.map]
                rw [ih f' rest hf']
              · rw [show escChar c = [c] from by
                  rw [escChar]; simp [h1, h2, h3, h4, h5, h6]]
                have hstep : parseStrBody (f' + 1) (c :: (escString tl ++ rest))
                    = (parseStrBody f' (escString tl ++ rest)).map (fun p => (c :: p.1, p.2)) := by
                  rw [parseStrBody, if_neg h1, if_neg h2]
                simp only [List.cons_append, List.nil_append]
                rw [hstep, ih f' rest hf']
                rfl

theorem isDigit_not_special (c : Char) (h : c.isDigit = true) :
    c ≠ 'n' ∧ c ≠ 't' ∧ c ≠ 'f' ∧ c ≠ '"' ∧ c ≠ '[' ∧ c ≠ '\x7b' ∧ c ≠ '-'
      ∧ c ≠ ']' ∧ c ≠ '\x7d' := by
  refine ⟨?_, ?_, ?_, ?_, ?_, ?_, ?_, ?_, ?_⟩ <;>
    first
    | (rintro rfl; exact absurd h (by decide))

theorem natDigits_cons (m : Nat) :
    ∃ d ds, natDigits m = d :: ds ∧ d.isDigit = true := by
  cases hcase : natDigits m with
  | nil => exact absurd hcase (natDigits_ne_nil m)
  | cons d ds =>
    refine ⟨d, ds, rfl, ?_⟩
    exact natDigits_all_digits m d (by rw [hcase]; exact List.mem_cons_self d ds)

theorem parseV_renderInt (n : Int) (f : Nat) (rest : List Char)
    (hrest : headNotDigit rest) :
    parseV (f + 1) (renderInt n ++ rest) = some (.num n, rest) := by
  by_cases hn : n < 0
  · rw [renderInt, if_pos hn]
    have hstep : parseV (f + 1) ('-' :: (natDigits n.natAbs ++ rest))
        = match parseDigits (natDigits n.natAbs ++ rest) with
          | some (m, r) => some (.num (-(m : Int)), r)
          | none => none := by
      rw [parseV]
      rw [if_neg (by decide), if_neg (by decide), if_neg (by decide), if_neg (by decide),
        if_neg (by decide), if_neg (by decide), if_pos rfl]
    rw [List.cons_append, hstep, parseDigits_natDigits n.natAbs rest hrest]
    show some (Jval.num (-((n.natAbs : Int))), rest) = some (Jval.num n, rest)
    have : -((n.natAbs : Int)) = n := by omega
    rw [this]
  · rw [renderInt, if_neg hn]
    obtain ⟨d, ds, hds, hdig⟩ := natDigits_cons n.natAbs
    obtain ⟨hs1, hs2, hs3, hs4, hs5, hs6, hs7, _, _⟩ := isDigit_not_special d hdig
    have hstep : parseV (f + 1) (d :: (ds ++ rest))
        = match parseDigits (d :: (ds ++ rest)) with
          | some (m, r) => some (.num (m : Int), r)
          | none => none := by
      rw [parseV]
      rw [if_neg hs1, if_neg hs2, if_neg hs3, if_neg hs4, if_neg hs5, if_neg hs6, if_neg hs7,
        if_pos hdig]
    rw [hds, List.cons_append, hstep, show d :: (ds ++ rest) = (d :: ds) ++ rest from rfl,
      ← hds, parseDigits_natDigits n.natAbs rest hrest]
    show some (Jval.num ((n.natAbs : Int)), rest) = some (Jval.num n, rest)
    have : ((n.natAbs : Int)) = n := by omega
    rw [this]

theorem renderV_head (v : Jval) :
    ∃ c t, renderV v = c :: t ∧ c ≠ ']' ∧ c ≠ '\x7d' := by
  cases v with
  | null => exact ⟨'n', _, rfl, by decide, by decide⟩
  | bool b =>
    cases b with
    | true => exact ⟨'t', _, rfl, by decide, by decide⟩
    | false => exact ⟨'f', _, rfl, by decide, by decide⟩
  | num n =>
    rw [show renderV (.num n) = renderInt n from rfl, renderInt]
    by_cases hn : n < 0
    · rw [if_pos hn]
      exact ⟨'-', _, rfl, by decide, by decide⟩
    · rw [if_neg hn]
      obtain ⟨d, ds, hds, hdig⟩ := natDigits_cons n.natAbs
      obtain ⟨_, _, _, _, _, _, _, h8, h9⟩ := isDigit_not_special d hdig
      exact ⟨d, ds, hds, h8, h9⟩
  | str s => exact ⟨'"', _, rfl, by decide, by decide⟩
  | arr es => exact ⟨'[', _, rfl, by decide, by decide⟩
  | obj ms => exact ⟨'\x7b', _, rfl, by decide, by decide⟩

theorem renderV_length_pos (v : Jval) : 1 ≤ (renderV v).length := by
  obtain ⟨c, t, he, _, _⟩ := renderV_head v
  rw [he]
  simp

theorem renderElems_cons_ex (v : Jval) (tl : Jlist) :
    ∃ X, renderElems (.cons v tl) = renderV v ++ X := by
  cases tl with
  | nil => exact ⟨_, rfl⟩
  | cons w tl' => exact ⟨_, rfl⟩

theorem renderMembers_cons_ex (k : String) (v : Jval) (tl : Jobj) :
    ∃ X, renderMembers (.cons k v tl) = '"' :: (escString k.data ++ X) := by
  cases tl with
  | nil =>
    refine ⟨':' :: renderV v ++ ['\x7d'], ?_⟩
    rw [show renderMembers (.cons k v .nil)
        = ('"' :: escString k.data) ++ ':' :: renderV v ++ ['\x7d'] from rfl]
    simp
  | cons k2 v2 tl' =>
    refine ⟨':' :: renderV v ++ ',' :: renderMembers (.cons k2 v2 tl'), ?_⟩
    rw [show renderMembers (.cons k v (.cons k2 v2 tl'))
        = ('"' :: escString k.data) ++ ':' :: renderV v ++ ',' :: renderMembers (.cons k2 v2 tl')
      from rfl]
    simp



mutual

theorem parseV_renderV : ∀ (v : Jval) (f : Nat) (rest : List Char),
    szV v ≤ f → headNotDigit rest →
    parseV f (renderV v ++ rest) = some (v, rest)
  | .null, f, rest, hf, hrest => by
    obtain ⟨f', rfl⟩ : ∃ f', f = f' + 1 := ⟨f - 1, by simp [szV] at hf; omega⟩
    rfl
  | .bool true, f, rest, hf, hrest => by
    obtain ⟨f', rfl⟩ : ∃ f', f = f' + 1 := ⟨f - 1, by simp [szV] at hf; omega⟩
    rfl
  | .bool false, f, rest, hf, hrest => by
    obtain ⟨f', rfl⟩ : ∃ f', f = f' + 1 := ⟨f - 1, by simp [szV] at hf; omega⟩
    rfl
  | .num n, f, rest, hf, hrest => by
    obtain ⟨f', rfl⟩ : ∃ f', f = f' + 1 := ⟨f - 1, by simp [szV] at hf; omega⟩
    exact parseV_renderInt n f' rest hrest
  | .str s, f, rest, hf, hrest => by
    obtain ⟨f', rfl⟩ : ∃ f', f = f' + 1 := ⟨f - 1, by simp [szV] at hf; omega⟩
    have hstep : parseV (f' + 1) ('"' :: (escString s.data ++ rest))
        = match parseStrBody ((escString s.data ++ rest).length + 1)
              (escString s.data ++ rest) with
          | some (sB, r) => some (.str (String.mk sB), r)
          | none => none := by
      rw [parseV]
      rw [if_neg (by decide), if_neg (by decide), if_neg (by decide), if_pos rfl]
    rw [show renderV (.str s) = '"' :: escString s.data from rfl, List.cons_append, hstep]
    rw [parseStrBody_escString s.data _ rest (by
      have := escString_length s.data
      rw [List.length_append]
      omega)]
  | .arr .nil, f, rest, hf, hrest => by
    obtain ⟨f', rfl⟩ : ∃ f', f = f' + 1 := ⟨f - 1, by simp [szV, szL] at hf; omega⟩
    rfl
  | .arr (.cons v1 tl), f, rest, hf, hrest => by
    obtain ⟨f', rfl⟩ : ∃ f', f = f' + 1 := ⟨f - 1, by simp [szV, szL] at hf; omega⟩
    obtain ⟨c0, t0, hc0, hc1, hc2⟩ := renderV_head v1
    obtain ⟨X, hX⟩ := renderElems_cons_ex v1 tl
    have hhead : ¬ ((renderElems (.cons v1 tl) ++ rest).head? = some ']') := by
      rw [hX, hc0]
      simp [hc1]
    have hstep : parseV (f' + 1) ('[' :: (renderElems (.cons v1 tl) ++ rest))
        = match parseElems f' (renderElems (.cons v1 tl) ++ rest) with
          | some (esR, r) => some (.arr esR, r)
          | none => none := by
      rw [parseV]
      rw [if_neg (by decide), if_neg (by decide), if_neg (by decide), if_neg (by decide),
        if_pos rfl, if_neg hhead]
    rw [show renderV (.arr (.cons v1 tl)) = '[' :: renderElems (.cons v1 tl) from rfl,
      List.cons_append, hstep]
    rw [parseElems_render v1 tl f' rest (by simp [szV, szL] at hf ⊢; omega) hrest]
  | .obj .nil, f, rest, hf, hrest => by
    obtain ⟨f', rfl⟩ : ∃ f', f = f' + 1 := ⟨f - 1, by simp [szV, szO] at hf; omega⟩
    rfl
  | .obj (.cons k1 v1 tl), f, rest, hf, hrest => by
    obtain ⟨f', rfl⟩ : ∃ f', f = f' + 1 := ⟨f - 1, by simp [szV, szO] at hf; omega⟩
    obtain ⟨X, hX⟩ := renderMembers_cons_ex k1 v1 tl
    have hhead : ¬ ((renderMembers (.cons k1 v1 tl) ++ rest).head? = some '\x7d') := by
      rw [hX]
      simp
    have hstep : parseV (f' + 1) ('\x7b' :: (renderMembers (.cons k1 v1 tl) ++ rest))
        = match parseMembers f' (renderMembers (.cons k1 v1 tl) ++ rest) with
          | some (msR, r) => some (.obj msR, r)
          | none => none := by
      rw [parseV]
      rw [if_neg (by decide), if_neg (by decide), if_neg (by decide), if_neg (by decide),
        if_neg (by decide), if_pos rfl, if_neg hhead]
    rw [show renderV (.obj (.cons k1 v1 tl)) = '\x7b' :: renderMembers (.cons k1 v1 tl)
        from rfl,
      List.cons_append, hstep]
    rw [parseMembers_render k1 v1 tl f' rest (by simp [szV, szO] at hf ⊢; omega) hrest]
  termination_by v => szV v
  decreasing_by all_goals (simp [szV, szL, szO]; try omega)

theorem parseElems_render : ∀ (v : Jval) (tl : Jlist) (f : Nat) (rest : List Char),
    szL (.cons v tl) ≤ f → headNotDigit rest →
    parseElems f (renderElems (.cons v tl) ++ rest) = some (.cons v tl, rest)
  | v, .nil, f, rest, hf, hrest => by
    obtain ⟨f', rfl⟩ : ∃ f', f = f' + 1 := ⟨f - 1, by simp [szL] at hf; omega⟩
    have hfv : szV v ≤ f' := by simp [szL] at hf; omega
    have hassoc : renderElems (.cons v .nil) ++ rest = renderV v ++ (']' :: rest) := by
      rw [show renderElems (.cons v .nil) = renderV v ++ [']'] from rfl, List.append_assoc]
      rfl
    rw [hassoc, parseElems]
    rw [parseV_renderV v f' (']' :: rest) hfv rfl]
    rfl
  | v, .cons w tl', f, rest, hf, hrest => by
    obtain ⟨f', rfl⟩ : ∃ f', f = f' + 1 := ⟨f - 1, by simp [szL] at hf; omega⟩
    have hfv : szV v ≤ f' := by simp [szL] at hf; omega
    have hassoc : renderElems (.cons v (.cons w tl')) ++ rest
        = renderV v ++ (',' :: (renderElems (.cons w tl') ++ rest)) := by
      rw [show renderElems (.cons v (.cons w tl'))
          = renderV v ++ ',' :: renderElems (.cons w tl') from rfl, List.append_assoc]
      rfl
    rw [hassoc, parseElems]
    rw [parseV_renderV v f' (',' :: (renderElems (.cons w tl') ++ rest)) hfv rfl]
    show (match parseElems f' (renderElems (.cons w tl') ++ rest) with
      | some (es, r3) => some (Jlist.cons v es, r3)
      | none => none) = some (.cons v (.cons w tl'), rest)
    rw [parseElems_render w tl' f' rest (by simp [szL] at hf ⊢; omega) hrest]
  termination_by v tl => szL (.cons v tl)
  decreasing_by all_goals (simp [szV, szL, szO]; try omega)

theorem parseMembers_render : ∀ (k : String) (v : Jval) (tl : Jobj) (f : Nat)
    (rest : List Char),
    szO (.cons k v tl) ≤ f → headNotDigit rest →
    parseMembers f (renderMembers (.cons k v tl) ++ rest) = some (.cons k v tl, rest)
  | k, v, .nil, f, rest, hf, hrest => by
    obtain ⟨f', rfl⟩ : ∃ f', f = f' + 1 := ⟨f - 1, by simp [szO] at hf; omega⟩
    have hfv : szV v ≤ f' := by simp [szO] at hf; omega
    have hassoc : renderMembers (.cons k v .nil) ++ rest
        = '"' :: (escString k.data ++ (':' :: (renderV v ++ ('\x7d' :: rest)))) := by
      rw [show renderMembers (.cons k v .nil)
          = ('"' :: escString k.data) ++ ':' :: renderV v ++ ['\x7d'] from rfl]
      simp
    rw [hassoc, parseMembers, if_pos rfl]
    rw [parseStrBody_escString k.data _ (':' :: (renderV v ++ ('\x7d' :: rest))) (by
      have := escString_length k.data
      rw [List.length_append]
      omega)]
    show (match parseV f' (renderV v ++ ('\x7d' :: rest)) with
      | some (vR, r3) =>
        match r3.head? with
        | some ',' =>
          match parseMembers f' r3.tail with
          | some (ms, r5) => some (Jobj.cons (String.mk k.data) vR ms, r5)
          | none => none
        | some '\x7d' => some (Jobj.cons (String.mk k.data) vR .nil, r3.tail)
        | _ => none
      | none => none) = some (.cons k v .nil, rest)
    rw [parseV_renderV v f' ('\x7d' :: rest) hfv rfl]
    rfl
  | k, v, .cons k2 v2 tl', f, rest, hf, hrest => by
    obtain ⟨f', rfl⟩ : ∃ f', f = f' + 1 := ⟨f - 1, by simp [szO] at hf; omega⟩
    have hfv : szV v ≤ f' := by simp [szO] at hf; omega
    have hassoc : renderMembers (.cons k v (.cons k2 v2 tl')) ++ rest
        = '"' :: (escString k.data
            ++ (':' :: (renderV v ++ (',' :: (renderMembers (.cons k2 v2 tl') ++ rest))))) := by
      rw [show renderMembers (.cons k v (.cons k2 v2 tl'))
          = ('"' :: escString k.data) ++ ':' :: renderV v
              ++ ',' :: renderMembers (.cons k2 v2 tl' ) from rfl]
      simp
    rw [hassoc, parseMembers, if_pos rfl]
    rw [parseStrBody_escString k.data _
      (':' :: (renderV v ++ (',' :: (renderMembers (.cons k2 v2 tl') ++ rest)))) (by
        have := escString_length k.data
        rw [List.length_append]
        omega)]
    show (match parseV f' (renderV v ++ (',' :: (renderMembers (.cons k2 v2 tl') ++ rest))) with
      | some (vR, r3) =>
        match r3.head? with
        | some ',' =>
          match parseMembers f' r3.tail with
          | some (ms, r5) => some (Jobj.cons (String.mk k.data) vR ms, r5)
          | none => none
        | some '\x7d' => some (Jobj.cons (String.mk k.data) vR .nil, r3.tail)
        | _ => none
      | none => none) = some (.cons k v (.cons k2 v2 tl'), rest)
    rw [parseV_renderV v f' (',' :: (renderMembers (.cons k2 v2 tl') ++ rest)) hfv rfl]
    show (match parseMembers f' (renderMembers (.cons k2 v2 tl') ++ rest) with
      | some (ms, r5) => some (Jobj.cons (String.mk k.data) v ms, r5)
      | none => none) = some (.cons k v (.cons k2 v2 tl'), rest)
    rw [parseMembers_render k2 v2 tl' f' rest (by simp [szO] at hf ⊢; omega) hrest]
  termination_by k v tl => szO (.cons k v tl)
  decreasing_by all_goals (simp [szV, szL, szO]; try omega)

end

mutual

theorem szV_le_renderV : ∀ v : Jval, szV v ≤ (renderV v).length
  | .null => by simp [szV, renderV]
  | .bool true => by simp [szV, renderV]
  | .bool false => by simp [szV, renderV]
  | .num n => by
    have := renderV_length_pos (.num n)
    simp only [szV]
    omega
  | .str s => by
    have := renderV_length_pos (.str s)
    simp only [szV]
    omega
  | .arr .nil => by simp [szV, szL, renderV, renderElems]
  | .arr (.cons v tl) => by
    have h1 := szL_le_renderElems (.cons v tl)
    rw [show renderV (.arr (.cons v tl)) = '[' :: renderElems (.cons v tl) from rfl]
    simp only [szV, List.length_cons]
    omega
  | .obj .nil => by simp [szV, szO, renderV, renderMembers]
  | .obj (.cons k v tl) => by
    have h1 := szO_le_renderMembers (.cons k v tl)
    rw [show renderV (.obj (.cons k v tl)) = '\x7b' :: renderMembers (.cons k v tl) from rfl]
    simp only [szV, List.length_cons]
    omega
  termination_by v => szV v
  decreasing_by all_goals (simp [szV, szL, szO]; try omega)

theorem szL_le_renderElems : ∀ l : Jlist, szL l ≤ (renderElems l).length
  | .nil => by simp [szL, renderElems]
  | .cons v .nil => by
    have h0 := renderV_length_pos v
    have h1 := szV_le_renderV v
    rw [show renderElems (.cons v .nil) = renderV v ++ [']'] from rfl]
    simp only [szL, szV, List.length_append, List.length_singleton]
    omega
  | .cons v (.cons w tl) => by
    have h0 := renderV_length_pos v
    have h1 := szV_le_renderV v
    have h2 := szL_le_renderElems (.cons w tl)
    rw [show renderElems (.cons v (.cons w tl))
        = renderV v ++ ',' :: renderElems (.cons w tl) from rfl]
    simp only [szL, szV, List.length_append, List.length_cons] at h2 ⊢
    omega
  termination_by l => szL l
  decreasing_by all_goals (simp [szV, szL, szO]; try omega)

theorem szO_le_renderMembers : ∀ o : Jobj, szO o ≤ (renderMembers o).length
  | .nil => by simp [szO, renderMembers]
  | .cons k v .nil => by
    have h0 := renderV_length_pos v
    have h1 := szV_le_renderV v
    rw [show renderMembers (.cons k v .nil)
        = ('"' :: escString k.data) ++ ':' :: renderV v ++ ['\x7d'] from rfl]
    simp only [szO, szV, List.length_append, List.length_cons, List.length_singleton]
    omega
  | .cons k v (.cons k2 v2 tl) => by
    have h0 := renderV_length_pos v
    have h1 := szV_le_renderV v
    have h2 := szO_le_renderMembers (.cons k2 v2 tl)
    rw [show renderMembers (.cons k v (.cons k2 v2 tl))
        = ('"' :: escString k.data) ++ ':' :: renderV v
            ++ ',' :: renderMembers (.cons k2 v2 tl) from rfl]
    simp only [szO, szV, List.length_append, List.length_cons] at h2 ⊢
    omega
  termination_by o => szO o
  decreasing_by all_goals (simp [szV, szL, szO]; try omega)

end

/-- Decoding the rendering of any JSON value yields the value back: the
renderer/parser pair is a round trip. -/
theorem jsonDecode_renderV (v : Jval) :
    jsonDecode (String.mk (renderV v)) = some v := by
  rw [jsonDecode]
  rw [show (String.mk (renderV v)).data = renderV v from rfl]
  have hfuel : szV v ≤ (renderV v).length + 1 := by
    have := szV_le_renderV v
    omega
  have h := parseV_renderV v ((renderV v).length + 1) [] hfuel trivial
  rw [List.append_nil] at h
  rw [h]

/-- Claim C7: decoding the JSON string produced by `ConvertFilter` on a
non-empty filter yields the filter again (`decode(encode(F)) == F`). -/
theorem C7_filter_round_trip (F : Jobj) (hne : F ≠ .nil) :
    decodeFilter (ConvertFilter (some F)) = some F := by
  cases F with
  | nil => exact absurd rfl hne
  | cons k v tl =>
    rw [show ConvertFilter (some (.cons k v tl))
        = String.mk (renderV (.obj (.cons k v tl))) from rfl]
    rw [decodeFilter, jsonDecode_renderV (.obj (.cons k v tl))]

theorem C7_filter_round_trip_witness :
    (Jobj.cons "a" (.str "b") .nil ≠ .nil)
      ∧ decodeFilter (ConvertFilter (some (Jobj.cons "a" (.str "b") .nil)))
          = some (Jobj.cons "a" (.str "b") .nil) :=
  ⟨fun h => Jobj.noConfusion h,
    C7_filter_round_trip (Jobj.cons "a" (.str "b") .nil) (fun h => Jobj.noConfusion h)⟩

/-- Claim C8: `ConvertFilter` maps the absent (nil) filter and the empty
map to the empty string, and an empty encoding makes `FetchSpireData` omit
the `filter` query parameter entirely (for either variant's page size). -/
theorem C8_empty_filter_omitted :
    ConvertFilter none = "" ∧ ConvertFilter (some .nil) = ""
      ∧ (∀ L : Nat, buildFetchQuery L (ConvertFilter none) = [("limit", Nat.repr L)])
      ∧ (∀ L : Nat, (buildFetchQuery L (ConvertFilter none)).lookup "filter" = none) := by
  refine ⟨rfl, rfl, fun L => rfl, fun L => ?_⟩
  rw [show buildFetchQuery L (ConvertFilter none) = [("limit", Nat.repr L)] from rfl]
  rfl

theorem jlistToList_ofList : ∀ l : List Jval, jlistToList (jlistOfList l) = l
  | [] => rfl
  | v :: tl => by rw [jlistOfList, jlistToList, jlistToList_ofList tl]

/-- Claim C10: the filter built by `GetOrderItems` is `{"$or": [...]}` with
exactly one `{"orderNo": order.OrderNo}` condition per entry of the orders
map; for the empty orders map the filter is the non-empty map
`{"$or": []}`, so the delegated request still carries a `filter` query
parameter (encoding to the string `{"$or":[]}`) rather than omitting it. -/
theorem C10_order_items_filter (orders : List OrderDetails) :
    (∃ conds, GetOrderItemsFilter orders = .cons "$or" (.arr conds) .nil
      ∧ jlistToList conds = orders.map orderCondition)
      ∧ ConvertFilter (some (GetOrderItemsFilter [])) = "\x7b\"$or\":[]\x7d"
      ∧ ConvertFilter (some (GetOrderItemsFilter [])) ≠ ""
      ∧ (∀ L : Nat,
          (buildFetchQuery L (ConvertFilter (some (GetOrderItemsFilter [])))).lookup "filter"
            = some "\x7b\"$or\":[]\x7d") := by
  refine ⟨⟨jlistOfList (orders.map orderCondition), rfl,
      jlistToList_ofList (orders.map orderCondition)⟩, rfl, ?_, fun L => ?_⟩
  · intro h
    exact absurd h (by decide)
  · rfl

/-- Claim C5: a response with status 201 or 204 yields the empty
`SpireResponse` (no records, count zero) and no error, regardless of the
response body, which is not decoded in these cases. -/
theorem C5_created_no_content_empty (resp : HTTPResponse)
    (h : resp.statusCode = 201 ∨ resp.statusCode = 204) :
    SpireRequestInterpret resp = .ok ⟨[], 0⟩ := by
  rw [SpireRequestInterpret]
  rw [if_neg (by omega), if_pos h]

theorem C5_created_no_content_empty_witness :
    SpireRequestInterpret ⟨201, "201 Created", "this body is not even JSON"⟩ = .ok ⟨[], 0⟩
      ∧ SpireRequestInterpret ⟨204, "204 No Content", "ignored"⟩ = .ok ⟨[], 0⟩ :=
  ⟨C5_created_no_content_empty ⟨201, "201 Created", "this body is not even JSON"⟩ (Or.inl rfl),
    C5_created_no_content_empty ⟨204, "204 No Content", "ignored"⟩ (Or.inr rfl)⟩

/-- Claim C6: `ValidateSpireCredentials` returns no error on status 200 and
a structured error on any other status whose message contains the HTTP
status text and the response body; in particular a 403 response with body
"invalid credentials" yields an error containing "403" and
"invalid credentials". -/
theorem C6_validate_status (code : Nat) (st bd : String) :
    (code = 200 → ValidateSpireCredentials ⟨code, st, bd⟩ = none)
      ∧ (code ≠ 200 →
          ValidateSpireCredentials ⟨code, st, bd⟩ = some ⟨st, bd⟩
            ∧ SpireErrorMessage ⟨st, bd⟩
                = "API request failed with status " ++ st ++ ". Details: " ++ bd)
      ∧ ValidateSpireCredentials ⟨403, "403 Forbidden", "invalid credentials"⟩
          = some ⟨"403 Forbidden", "invalid credentials"⟩
      ∧ (∃ p q, SpireErrorMessage ⟨"403 Forbidden", "invalid credentials"⟩
          = p ++ "403" ++ q)
      ∧ (∃ p q, SpireErrorMessage ⟨"403 Forbidden", "invalid credentials"⟩
          = p ++ "invalid credentials" ++ q) := by
  refine ⟨?_, ?_, rfl,
    ⟨"API request failed with status ", " Forbidden. Details: invalid credentials", by rfl⟩,
    ⟨"API request failed with status 403 Forbidden. Details: ", "", by rfl⟩⟩
  · intro h
    simp [ValidateSpireCredentials, h]
  · intro h
    exact ⟨by simp [ValidateSpireCredentials, h], rfl⟩

theorem C6_validate_status_witness :
    ValidateSpireCredentials ⟨200, "200 OK", ""⟩ = none
      ∧ ValidateSpireCredentials ⟨404, "404 Not Found", "no"⟩
          = some ⟨"404 Not Found", "no"⟩ :=
  ⟨(C6_validate_status 200 "200 OK" "").1 rfl,
    ((C6_validate_status 404 "404 Not Found" "no").2.1 (by decide)).1⟩

/-- Claim C9: `BasicAuthHeader` is exactly
`"Basic " ++ base64(utf8(username ++ ":" ++ password))` for all usernames
and passwords, including empty ones (a pure function with no error
conditions), and `SpireRequest` attaches this exact value as the
`Authorization` header of every request it issues. -/
theorem C9_basic_auth_header :
    (∀ a : SpireAgent, BasicAuthHeader a
        = "Basic " ++ String.mk (base64Encode (utf8Bytes (a.Username ++ ":" ++ a.Password).data)))
      ∧ BasicAuthHeader ⟨"", ""⟩ = "Basic Og=="
      ∧ BasicAuthHeader ⟨"user", "pass"⟩ = "Basic dXNlcjpwYXNz"
      ∧ (∀ (a : SpireAgent) (hasPayload : Bool),
          ("Authorization", BasicAuthHeader a) ∈ spireRequestHeaders a hasPayload) := by
  refine ⟨fun a => rfl, by decide, by decide, fun a hp => ?_⟩
  cases hp <;> simp [spireRequestHeaders]
